import Mathlib

/-!
Verification of the chaospy distribution-construction core against its
specification.  The development shallowly embeds the two source files:

* `src/src/chaospy/distributions/constructor.py` — the `construct` factory
  (attribute registry, parent fallback, key validation, and the generator
  closure `custom_distribution`);
* `src/chaospy/distributions/collection/triangle.py` — the standardized
  `triangle` distribution (`_pdf`, `_cdf`, `_ppf`, `_mom`, `_ttr`) and the
  affine wrapper class `Triangle`.

Python dicts are embedded as association lists with Python's update
semantics (replacement keeps the entry's position, a new key is appended
at the end, iteration follows list order).  Numpy floats are embedded as
elements of a linear ordered field (instantiated at `ℚ` for executable
witnesses and at `ℝ` where `sqrt` is needed); `numpy.where(c, t, e)` on
scalars is embedded as `if c then t else e`.  External numerical
primitives (`quad_fejer`, `discretized_stieltjes`, `beta_._ttr`) live
outside the two source files and are abstracted as oracle parameters.
-/

/-! ## Python dict model -/

/-- Lookup of a key in a dict (first matching entry). -/
def dictGet {β : Type} : List (String × β) → String → Option β
  | [], _ => none
  | kv :: rest, k => if kv.1 = k then some kv.2 else dictGet rest k

/-- Membership test `key in d`. -/
def dictContains {β : Type} (d : List (String × β)) (k : String) : Bool :=
  (dictGet d k).isSome

/-- Lookup with a default value. -/
def dictGetD {β : Type} (d : List (String × β)) (k : String) (v₀ : β) : β :=
  (dictGet d k).getD v₀

/-- `d[k] = v`: replacement keeps the entry's position, a new key is
appended at the end (Python dict assignment). -/
def dictSet {β : Type} : List (String × β) → String → β → List (String × β)
  | [], k, v => [(k, v)]
  | kv :: rest, k, v => if kv.1 = k then (k, v) :: rest else kv :: dictSet rest k v

/-- `d.pop(k)`: removes the (first) entry with the given key. -/
def dictRemove {β : Type} : List (String × β) → String → List (String × β)
  | [], _ => []
  | kv :: rest, k => if kv.1 = k then rest else kv :: dictRemove rest k

/-- `d.update(kws)`: sets every pair of `kws` in order. -/
def dictUpdate {β : Type} (d kws : List (String × β)) : List (String × β) :=
  kws.foldl (fun acc kv => dictSet acc kv.1 kv.2) d

/-- `d.copy()`: dicts are values in the embedding, so a copy is the value
itself; the point of modelling it is that the caller goes on to mutate the
copy, never the original. -/
def dictCopy {β : Type} (d : List (String × β)) : List (String × β) := d

theorem dictGet_set_self {β : Type} (d : List (String × β)) (k : String) (v : β) :
    dictGet (dictSet d k v) k = some v := by
  induction d with
  | nil => simp [dictSet, dictGet]
  | cons kv rest ih =>
      by_cases h : kv.1 = k
      · simp [dictSet, h, dictGet]
      · simp [dictSet, h, dictGet, ih]

theorem dictGet_set_ne {β : Type} (d : List (String × β)) {k' k : String} (v : β)
    (h : k' ≠ k) : dictGet (dictSet d k' v) k = dictGet d k := by
  induction d with
  | nil => simp [dictSet, dictGet, h]
  | cons kv rest ih =>
      simp only [dictSet]
      by_cases hk : kv.1 = k'
      · rw [if_pos hk]
        simp only [dictGet]
        rw [if_neg h, if_neg (fun hc => h (hk.symm.trans hc))]
      · rw [if_neg hk]
        by_cases hk2 : kv.1 = k
        · simp only [dictGet, if_pos hk2]
        · simp only [dictGet, if_neg hk2]
          exact ih

theorem dictContains_set_ne {β : Type} (d : List (String × β)) {k' k : String} (v : β)
    (h : k' ≠ k) : dictContains (dictSet d k' v) k = dictContains d k := by
  simp [dictContains, dictGet_set_ne d v h]

theorem dictContains_eq_true_iff {β : Type} (d : List (String × β)) (k : String) :
    dictContains d k = true ↔ ∃ v, dictGet d k = some v := by
  simp [dictContains, Option.isSome_iff_exists]

/-! ## Embedding of `constructor.py` -/

/-- A value bound to an operation name.  Function objects are opaque and
named by a number; a literal string passed for `str` is distinguished so
that `construct`'s normalization step (`isinstance(kwargs["str"], str)`)
is expressible, and `constFn s` stands for the wrapper
`lambda *args, **kwargs: s` it is normalized into. -/
inductive OpVal where
  | fn (id : Nat) : OpVal
  | strLit (s : String) : OpVal
  | constFn (s : String) : OpVal
deriving DecidableEq

/-- `LEGAL_ATTRS`: the closed attribute registry, public operation name to
internal slot name, in the source's literal order. -/
def LEGAL_ATTRS : List (String × String) :=
  [("cdf", "_cdf"), ("bnd", "_bnd"),
   ("pdf", "_pdf"), ("ppf", "_ppf"), ("mom", "_mom"),
   ("ttr", "_ttr"), ("fwd_cache", "_fwd_cache"), ("inv_cache", "_inv_cache"),
   ("doc", "__doc__"),
   ("str", "_str")]

/-- The registry's public keys. -/
def legalKeys : List String := LEGAL_ATTRS.map Prod.fst

/-- The first key of a dict (in iteration order) that is not in the
registry; `none` when all keys are legal.  This is the key whose
`assert key in LEGAL_ATTRS` (resp. `assert key in LEGAL_ATTRS` for
`defaults`) fails first. -/
def firstIllegal {β : Type} (d : List (String × β)) : Option String :=
  (d.find? (fun kv => !(legalKeys.contains kv.1))).map Prod.fst

/-- The parent-fallback loop of `construct`: for every registry pair
`(key, value)` in registry order, if `key not in kwargs` and
`hasattr(parent, value)`, set `kwargs[key] = getattr(parent, value)`.
The parent is embedded as the dict of its attribute slots. -/
def inheritFromParent (parent kwargs : List (String × OpVal)) : List (String × OpVal) :=
  LEGAL_ATTRS.foldl
    (fun kw ka =>
      if !(dictContains kw ka.1) && dictContains parent ka.2 then
        dictSet kw ka.1 (dictGetD parent ka.2 (OpVal.fn 0))
      else kw)
    kwargs

/-- `kwargs` after the optional parent fallback. -/
def resolveParent : Option (List (String × OpVal)) → List (String × OpVal) → List (String × OpVal)
  | none, kwargs => kwargs
  | some p, kwargs => inheritFromParent p kwargs

/-- The `str` normalization step: a literal string is popped and re-bound
as a constant-returning function (`kwargs.pop` then reassignment moves the
entry to the end of the dict). -/
def normalizeStr (kwargs : List (String × OpVal)) : List (String × OpVal) :=
  match dictGet kwargs "str" with
  | some (OpVal.strLit s) => dictRemove kwargs "str" ++ [("str", OpVal.constFn s)]
  | _ => kwargs

/-- The configuration errors `construct` can raise, one constructor per
`assert` in the source, carrying the key the message interpolates. -/
inductive ConstructError where
  | notLegalInput (key : String)
  | missingCdf
  | missingBnd
  | invalidDefault (key : String)
deriving DecidableEq

/-- The factory returned by `construct`: the captured `defaults` dict, the
fully resolved operation table `kwargs` closed over by
`custom_distribution`, and the documentation attached to the factory. -/
structure Generator where
  defaults : List (String × Nat)
  kwargs : List (String × OpVal)
  doc : Option OpVal
deriving DecidableEq

/-- `construct(parent=None, defaults=None, **kwargs)`.  Parameter values
are opaque and embedded as `Nat`.  Follows the source's order: validate
`kwargs` keys, inherit from `parent`, require `cdf` then `bnd`, normalize
a literal `str`, validate `defaults` keys, return the factory. -/
def construct (parent : Option (List (String × OpVal)))
    (defaults : List (String × Nat)) (kwargs : List (String × OpVal)) :
    Except ConstructError Generator :=
  match firstIllegal kwargs with
  | some k => .error (ConstructError.notLegalInput k)
  | none =>
    let kw1 := resolveParent parent kwargs
    if !(dictContains kw1 "cdf") then .error ConstructError.missingCdf
    else if !(dictContains kw1 "bnd") then .error ConstructError.missingBnd
    else
      let kw2 := normalizeStr kw1
      match firstIllegal defaults with
      | some k => .error (ConstructError.invalidDefault k)
      | none => .ok { defaults := defaults, kwargs := kw2, doc := dictGet kw2 "doc" }

/-- A distribution instance: its parameter dict (from merged
defaults/overrides) and its dispatch table, keyed by internal slot name,
holding the per-instance bound methods (`setattr(dist, LEGAL_ATTRS[key],
types.MethodType(function, dist))`). -/
structure DistInstance where
  prm : List (String × Nat)
  table : List (String × OpVal)
deriving DecidableEq

/-- The dispatch table built for one fresh instance: each resolved
operation keyed by its internal slot name. -/
def bindTable (kwargs : List (String × OpVal)) : List (String × OpVal) :=
  kwargs.map (fun kf => (dictGetD LEGAL_ATTRS kf.1 "", kf.2))

/-- The generator closure `custom_distribution(**kws)`.  Its captured
mutable state is the `defaults` dict, passed and returned explicitly: the
body runs `prm = defaults.copy(); prm.update(kws)`, builds a fresh
instance from `prm`, binds the operation table onto it, and leaves the
captured `defaults` untouched — so the returned state is the input state. -/
def custom_distribution (g : Generator) (defaultsState : List (String × Nat))
    (kws : List (String × Nat)) : DistInstance × List (String × Nat) :=
  let prm := dictUpdate (dictCopy defaultsState) kws
  let dist : DistInstance := { prm := prm, table := bindTable g.kwargs }
  (dist, defaultsState)

/-! ### Helper lemmas about the parent-fallback fold -/

/-- A fold over registry pairs never touches a key outside the pairs it
processes. -/
theorem inheritFold_get_not_mem (attrs : List (String × String))
    (parent : List (String × OpVal)) (kw : List (String × OpVal)) (k : String)
    (hk : k ∉ attrs.map Prod.fst) :
    dictGet (attrs.foldl
      (fun kw ka =>
        if !(dictContains kw ka.1) && dictContains parent ka.2 then
          dictSet kw ka.1 (dictGetD parent ka.2 (OpVal.fn 0))
        else kw) kw) k = dictGet kw k := by
  induction attrs generalizing kw with
  | nil => rfl
  | cons ka rest ih =>
      simp only [List.map_cons, List.mem_cons, not_or] at hk
      obtain ⟨hne, hrest⟩ := hk
      simp only [List.foldl_cons]
      by_cases hc : (!(dictContains kw ka.1) && dictContains parent ka.2) = true
      · rw [if_pos hc, ih _ hrest, dictGet_set_ne _ _ (fun h => hne h.symm)]
      · rw [if_neg hc, ih _ hrest]

/-- A key already present in `kwargs` is never overwritten by the
parent-fallback fold. -/
theorem inheritFold_get_of_contains (attrs : List (String × String))
    (parent : List (String × OpVal)) (k : String) :
    ∀ kw : List (String × OpVal), dictContains kw k = true →
    dictGet (attrs.foldl
      (fun kw ka =>
        if !(dictContains kw ka.1) && dictContains parent ka.2 then
          dictSet kw ka.1 (dictGetD parent ka.2 (OpVal.fn 0))
        else kw) kw) k = dictGet kw k := by
  induction attrs with
  | nil => intro kw _; rfl
  | cons ka rest ih =>
      intro kw hk
      simp only [List.foldl_cons]
      by_cases hkey : ka.1 = k
      · have hcond : (!(dictContains kw ka.1) && dictContains parent ka.2) = false := by
          rw [hkey, hk]; simp
        simp only [hcond, Bool.false_eq_true, if_false]
        exact ih kw hk
      · by_cases hc : (!(dictContains kw ka.1) && dictContains parent ka.2) = true
        · rw [if_pos hc]
          have hcont : dictContains (dictSet kw ka.1 (dictGetD parent ka.2 (OpVal.fn 0))) k = true := by
            rw [dictContains_set_ne _ _ hkey]; exact hk
          rw [ih _ hcont, dictGet_set_ne _ _ hkey]
        · rw [if_neg hc]
          exact ih kw hk

/-- The parent-fallback fold copies the parent's slot for a registry key
absent from `kwargs`: after the fold, that key's value is exactly the
parent's. -/
theorem inheritFold_get_inherited (attrs : List (String × String))
    (parent : List (String × OpVal)) (k a : String) (hp : dictContains parent a = true) :
    (k, a) ∈ attrs → (attrs.map Prod.fst).Nodup →
    ∀ kw : List (String × OpVal), dictContains kw k = false →
    dictGet (attrs.foldl
      (fun kw ka =>
        if !(dictContains kw ka.1) && dictContains parent ka.2 then
          dictSet kw ka.1 (dictGetD parent ka.2 (OpVal.fn 0))
        else kw) kw) k = dictGet parent a := by
  induction attrs with
  | nil => intro hmem _ _ _; exact absurd hmem (List.not_mem_nil _)
  | cons ka rest ih =>
      intro hmem hnd kw hk
      simp only [List.map_cons, List.nodup_cons] at hnd
      obtain ⟨hhead, hndrest⟩ := hnd
      rcases List.mem_cons.mp hmem with heq | hmem'
      · -- this is the step that copies the slot
        have hka1 : ka.1 = k := by rw [← heq]
        have hka2 : ka.2 = a := by rw [← heq]
        simp only [List.foldl_cons]
        have hc : (!(dictContains kw ka.1) && dictContains parent ka.2) = true := by
          rw [hka1, hka2, hk, hp]; rfl
        rw [if_pos hc, hka1, hka2]
        have hget := dictGet_set_self kw k (dictGetD parent a (OpVal.fn 0))
        have hcont : dictContains (dictSet kw k (dictGetD parent a (OpVal.fn 0))) k = true := by
          rw [dictContains_eq_true_iff]; exact ⟨_, hget⟩
        rw [inheritFold_get_of_contains rest parent k _ hcont, hget]
        obtain ⟨v, hv⟩ := (dictContains_eq_true_iff parent a).mp hp
        simp [dictGetD, hv]
      · -- a different registry pair: the key is untouched at this step
        have hne : ka.1 ≠ k := by
          intro h
          exact hhead (h ▸ (List.mem_map.mpr ⟨(k, a), hmem', rfl⟩))
        simp only [List.foldl_cons]
        by_cases hc : (!(dictContains kw ka.1) && dictContains parent ka.2) = true
        · rw [if_pos hc]
          have hk' : dictContains (dictSet kw ka.1 (dictGetD parent ka.2 (OpVal.fn 0))) k = false := by
            rw [dictContains_set_ne _ _ hne]; exact hk
          exact ih hmem' hndrest _ hk'
        · rw [if_neg hc]
          exact ih hmem' hndrest kw hk

/-- The registry's public keys are pairwise distinct. -/
theorem legalAttrs_keys_nodup : (LEGAL_ATTRS.map Prod.fst).Nodup := by decide

/-! ## Claims about `construct` -/

/-- When every check passes, `construct` returns the factory closing over
the resolved, normalized operation table. -/
theorem construct_eq_ok (parent : Option (List (String × OpVal)))
    (defaults : List (String × Nat)) (kwargs : List (String × OpVal))
    (h1 : firstIllegal kwargs = none)
    (hc : dictContains (resolveParent parent kwargs) "cdf" = true)
    (hb : dictContains (resolveParent parent kwargs) "bnd" = true)
    (h2 : firstIllegal defaults = none) :
    construct parent defaults kwargs =
      .ok ⟨defaults, normalizeStr (resolveParent parent kwargs),
        dictGet (normalizeStr (resolveParent parent kwargs)) "doc"⟩ := by
  simp [construct, h1, hc, hb, h2]

/-- C1: with a parent given, every registry key not explicitly supplied
whose internal slot exists on the parent is copied into the operation
table (and supplied keys are never overwritten); the resolution happens
once, at factory-build time, after which construction fails with the
missing-required-operation error unless both `cdf` and `bnd` are present;
in particular a call supplying only a parent that defines `_cdf` and
`_bnd` succeeds, its table being the eagerly resolved one. -/
theorem construct_parent_inheritance
    (parent : List (String × OpVal)) (defaults : List (String × Nat))
    (kwargs : List (String × OpVal)) :
    (∀ k a, (k, a) ∈ LEGAL_ATTRS → dictContains kwargs k = false →
        dictContains parent a = true →
        dictGet (inheritFromParent parent kwargs) k = dictGet parent a)
    ∧ (∀ k, dictContains kwargs k = true →
        dictGet (inheritFromParent parent kwargs) k = dictGet kwargs k)
    ∧ (firstIllegal kwargs = none →
        dictContains (inheritFromParent parent kwargs) "cdf" = false →
        construct (some parent) defaults kwargs = .error ConstructError.missingCdf)
    ∧ (firstIllegal kwargs = none →
        dictContains (inheritFromParent parent kwargs) "cdf" = true →
        dictContains (inheritFromParent parent kwargs) "bnd" = false →
        construct (some parent) defaults kwargs = .error ConstructError.missingBnd)
    ∧ (dictContains parent "_cdf" = true → dictContains parent "_bnd" = true →
        construct (some parent) [] [] =
          .ok ⟨[], normalizeStr (resolveParent (some parent) []),
            dictGet (normalizeStr (resolveParent (some parent) [])) "doc"⟩) := by
  refine ⟨?_, ?_, ?_, ?_, ?_⟩
  · intro k a hmem hk hp
    exact inheritFold_get_inherited LEGAL_ATTRS parent k a hp hmem legalAttrs_keys_nodup kwargs hk
  · intro k hk
    exact inheritFold_get_of_contains LEGAL_ATTRS parent k kwargs hk
  · intro h1 hcdf
    simp [construct, h1, resolveParent, hcdf]
  · intro h1 hcdf hbnd
    simp [construct, h1, resolveParent, hcdf, hbnd]
  · intro hcdf hbnd
    have hmemc : ("cdf", "_cdf") ∈ LEGAL_ATTRS := by decide
    have hmemb : ("bnd", "_bnd") ∈ LEGAL_ATTRS := by decide
    have hgetc : dictGet (inheritFromParent parent []) "cdf" = dictGet parent "_cdf" :=
      inheritFold_get_inherited LEGAL_ATTRS parent "cdf" "_cdf" hcdf hmemc
        legalAttrs_keys_nodup [] rfl
    have hgetb : dictGet (inheritFromParent parent []) "bnd" = dictGet parent "_bnd" :=
      inheritFold_get_inherited LEGAL_ATTRS parent "bnd" "_bnd" hbnd hmemb
        legalAttrs_keys_nodup [] rfl
    have hcontc : dictContains (inheritFromParent parent []) "cdf" = true := by
      rw [dictContains_eq_true_iff, hgetc]
      exact (dictContains_eq_true_iff parent "_cdf").mp hcdf
    have hcontb : dictContains (inheritFromParent parent []) "bnd" = true := by
      rw [dictContains_eq_true_iff, hgetb]
      exact (dictContains_eq_true_iff parent "_bnd").mp hbnd
    have h1nil : firstIllegal ([] : List (String × OpVal)) = none := by decide
    have h2nil : firstIllegal ([] : List (String × Nat)) = none := by decide
    have hc' : dictContains (resolveParent (some parent) []) "cdf" = true := hcontc
    have hb' : dictContains (resolveParent (some parent) []) "bnd" = true := hcontb
    exact construct_eq_ok (some parent) [] [] h1nil hc' hb' h2nil

/-- C1 witness: a parent exposing only `_cdf` and `_bnd` yields a
successful factory with the inherited table. -/
theorem construct_parent_inheritance_witness :
    dictContains [("_cdf", OpVal.fn 1), ("_bnd", OpVal.fn 2)] "_cdf" = true ∧
    dictContains [("_cdf", OpVal.fn 1), ("_bnd", OpVal.fn 2)] "_bnd" = true ∧
    construct (some [("_cdf", OpVal.fn 1), ("_bnd", OpVal.fn 2)]) [] [] =
      .ok ⟨[], normalizeStr (resolveParent (some [("_cdf", OpVal.fn 1), ("_bnd", OpVal.fn 2)]) []),
        dictGet (normalizeStr
          (resolveParent (some [("_cdf", OpVal.fn 1), ("_bnd", OpVal.fn 2)]) [])) "doc"⟩ :=
  ⟨by decide, by decide,
    (construct_parent_inheritance [("_cdf", OpVal.fn 1), ("_bnd", OpVal.fn 2)] [] []).2.2.2.2
      (by decide) (by decide)⟩

/-- C8 (amended): an unrecognized key always makes `construct` fail with
no factory built; the error names the offending `operations` key (checked
first, in dict order), and it names the offending `defaults` key whenever
`cdf` and `bnd` are present after fallback — but when `cdf` or `bnd` is
missing, the failure raised is the missing-operation error, which does not
name the bad `defaults` key. -/
theorem construct_key_validation
    (parent : Option (List (String × OpVal))) (defaults : List (String × Nat))
    (kwargs : List (String × OpVal)) :
    (∀ k, firstIllegal kwargs = some k →
        construct parent defaults kwargs = .error (ConstructError.notLegalInput k))
    ∧ (firstIllegal kwargs = none →
        dictContains (resolveParent parent kwargs) "cdf" = true →
        dictContains (resolveParent parent kwargs) "bnd" = true →
        ∀ k, firstIllegal defaults = some k →
        construct parent defaults kwargs = .error (ConstructError.invalidDefault k))
    ∧ ((firstIllegal kwargs ≠ none ∨ firstIllegal defaults ≠ none) →
        ∃ e, construct parent defaults kwargs = .error e) := by
  refine ⟨?_, ?_, ?_⟩
  · intro k hk
    simp only [construct, hk]
  · intro h1 hcdf hbnd k hk
    simp only [construct, h1, hcdf, hbnd, hk, Bool.not_true, Bool.false_eq_true, if_false]
  · intro hbad
    cases h1 : firstIllegal kwargs with
    | some k => exact ⟨ConstructError.notLegalInput k, by simp [construct, h1]⟩
    | none =>
        rcases hbad with hbad | hbad
        · exact absurd h1 hbad
        · cases h2 : firstIllegal defaults with
          | none => exact absurd h2 hbad
          | some k =>
              cases hcdf : dictContains (resolveParent parent kwargs) "cdf" with
              | false =>
                  exact ⟨ConstructError.missingCdf, by simp [construct, h1, hcdf]⟩
              | true =>
                  cases hbnd : dictContains (resolveParent parent kwargs) "bnd" with
                  | false =>
                      exact ⟨ConstructError.missingBnd, by simp [construct, h1, hcdf, hbnd]⟩
                  | true =>
                      exact ⟨ConstructError.invalidDefault k,
                        by simp [construct, h1, hcdf, hbnd, h2]⟩

/-- C8 counterexample: with `defaults = {"bogus": 0}` and no `cdf`, the
bad defaults key does exist, yet `construct` fails with the missing-`cdf`
error, which names no offending key — the defaults check only runs after
the `cdf`/`bnd` asserts. -/
theorem construct_defaults_key_not_identified :
    firstIllegal [("bogus", (0 : Nat))] = some "bogus" ∧
    construct none [("bogus", 0)] [] = .error ConstructError.missingCdf ∧
    (∀ k, ConstructError.missingCdf ≠ ConstructError.notLegalInput k) ∧
    (∀ k, ConstructError.missingCdf ≠ ConstructError.invalidDefault k) := by
  refine ⟨rfl, rfl, ?_, ?_⟩
  · intro k h; exact ConstructError.noConfusion h
  · intro k h; exact ConstructError.noConfusion h

/-- C8 witness: when `cdf` and `bnd` are supplied, the bad defaults key is
identified by the configuration error. -/
theorem construct_key_validation_witness :
    firstIllegal [("bogus", (7 : Nat))] = some "bogus" ∧
    construct none [("bogus", 7)] [("cdf", OpVal.fn 1), ("bnd", OpVal.fn 2)] =
      .error (ConstructError.invalidDefault "bogus") :=
  ⟨by decide,
    (construct_key_validation none [("bogus", 7)]
        [("cdf", OpVal.fn 1), ("bnd", OpVal.fn 2)]).2.1
      (by decide) (by decide) (by decide) "bogus" (by decide)⟩

/-- C10: each factory invocation copies the captured `defaults` dict
before merging the per-call overrides, so the closure state is unchanged
by a call, a second instantiation observes exactly the same defaults as a
fresh one, and every call builds a fresh instance whose parameters are the
merged dict and whose dispatch table is its own binding of the resolved
operations. -/
theorem custom_distribution_preserves_defaults (g : Generator)
    (st kws1 kws2 : List (String × Nat)) :
    (custom_distribution g st kws1).2 = st
    ∧ (custom_distribution g ((custom_distribution g st kws1).2) kws2).1
        = (custom_distribution g st kws2).1
    ∧ (custom_distribution g st kws1).1.prm = dictUpdate (dictCopy st) kws1
    ∧ (custom_distribution g st kws1).1.table = bindTable g.kwargs :=
  ⟨rfl, rfl, rfl, rfl⟩

/-! ## Embedding of `triangle.py` -/

/-- `triangle._pdf`: `numpy.where(xloc < a, 2*xloc/a, 2*(1-xloc)/(1-a))`.
Field division is total in Lean; `trianglePdfDiv` below tracks the case
of an exactly-zero denominator. -/
def trianglePdf {α : Type} [LinearOrderedField α] (xloc a : α) : α :=
  if xloc < a then 2*xloc/a else 2*(1-xloc)/(1-a)

/-- `triangle._pdf` with numpy float semantics for an exactly-zero
denominator: the selected branch yields `none` (numpy Inf/NaN) when its
denominator is zero, instead of Lean's junk value `x / 0 = 0`. -/
def trianglePdfDiv {α : Type} [LinearOrderedField α] (xloc a : α) : Option α :=
  if xloc < a then (if a = 0 then none else some (2*xloc/a))
  else (if 1 - a = 0 then none else some (2*(1-xloc)/(1-a)))

/-- `triangle._cdf`: `numpy.where(xloc < a, xloc**2/(a+(a == 0)),
(2*xloc-xloc*xloc-a)/(1-a+(a == 1)))`; the `(a == 0)`/`(a == 1)` boolean
summands guard the denominators. -/
def triangleCdf {α : Type} [LinearOrderedField α] (xloc a : α) : α :=
  if xloc < a then xloc^2 / (a + (if a = 0 then 1 else 0))
  else (2*xloc - xloc*xloc - a) / (1 - a + (if a = 1 then 1 else 0))

/-- `triangle._ppf`: `numpy.where(qloc<a, numpy.sqrt(qloc*a),
1-numpy.sqrt(1-a-qloc*(1-a)))`. -/
noncomputable def trianglePpf (qloc a : ℝ) : ℝ :=
  if qloc < a then Real.sqrt (qloc*a) else 1 - Real.sqrt (1-a-qloc*(1-a))

/-- `triangle._mom`: `a_ = a*(a!=1); out = 2*(1.-a_**(k+1))/((k+1)*(k+2)*(1-a_));
return numpy.where(a==1, 2./(k+2), out)`. -/
def triangleMom {α : Type} [LinearOrderedField α] (k : Nat) (a : α) : α :=
  let a_ := a * (if a = 1 then 0 else 1)
  let out := 2*(1 - a_^(k+1)) / (((k : α)+1)*((k : α)+2)*(1-a_))
  if a = 1 then 2/((k : α)+2) else out

/-- `triangle._lower`. -/
def triangleLower {α : Type} [LinearOrderedField α] (_a : α) : α := 0

/-- `triangle._upper`. -/
def triangleUpper {α : Type} [LinearOrderedField α] (_a : α) : α := 1

/-- The standardized `triangle` instance: `triangle.__init__` stores
`dict(a=a)`.  Its range assertion
`assert numpy.all(a>=0) and numpy.all(a<=1)` is commented out in the
source, so the constructor performs no validation. -/
structure TriangleSimple (α : Type) where
  a : α
deriving DecidableEq

/-- `triangle.__init__` (no validation: the assert is commented out). -/
def triangleMk {α : Type} (a : α) : TriangleSimple α := ⟨a⟩

/-- The affine wrapper object: the wrapped standardized child, the target
bounds, and `_repr_args` as finally assigned. -/
structure TriangleDistObj (α : Type) where
  dist : TriangleSimple α
  lower : α
  upper : α
  repr_args : List α
deriving DecidableEq

/-- Modelled from the spec: `LowerUpperDistribution.__init__` (the
baseclass `Triangle.__init__` calls) is not under `src/`; per the spec the
wrapper's construction validates `lower ≤ upper` — a violation is a
construction-time failure — and wraps the child without mutating it.  Any
midpoint validation would have to live in the code under `src/`. -/
def lowerUpperInit {α : Type} [LinearOrderedField α] (dist : TriangleSimple α)
    (lower upper : α) : Except String (TriangleDistObj α) :=
  if lower ≤ upper then .ok ⟨dist, lower, upper, []⟩
  else .error "lower bound must not exceed upper bound"

/-- `Triangle.__init__(lower, midpoint, upper)`: rebinds
`midpoint = (midpoint-lower)*1./(upper-lower)`, builds the child
`triangle(midpoint)` through the baseclass, then overwrites
`self._repr_args = [lower, midpoint, upper]` — using the rebound,
normalized `midpoint`. -/
def TriangleInit {α : Type} [LinearOrderedField α] (lower midpoint upper : α) :
    Except String (TriangleDistObj α) :=
  let midpoint2 := (midpoint - lower) * 1 / (upper - lower)
  match lowerUpperInit (triangleMk midpoint2) lower upper with
  | .ok w => .ok { w with repr_args := [lower, midpoint2, upper] }
  | .error e => .error e

/-! ## Claims about the triangle distribution's closed forms -/

/-- C3 (code bug): at the boundary shape parameter `a = 1` the cumulative
function is broken at the upper support bound: `_cdf(1, 1)` selects the
second branch and computes `(2*1 - 1*1 - 1)/(1 - 1 + 1) = 0`, not `1`,
while just below the bound `_cdf(9/10, 1) = 81/100` — so both
`cdf(upper) = 1` and monotonicity fail at `a = 1`. -/
theorem triangle_cdf_broken_at_a_one :
    triangleCdf (1 : ℚ) 1 = 0 ∧ triangleCdf (9/10 : ℚ) 1 = 81/100 ∧
    ¬ (triangleCdf (9/10 : ℚ) 1 ≤ triangleCdf (1 : ℚ) 1) := by
  refine ⟨?_, ?_, ?_⟩ <;> norm_num [triangleCdf]

/-- C9 (code bug): `_pdf` performs no case analysis on the shape
parameter: at `a = 1`, `x = 1` (inside the support) the selected branch
computes `2*(1-1)/(1-1)`, an exact `0/0` — numpy NaN — rather than a
limiting value. -/
theorem triangle_pdf_div_zero_at_boundary :
    trianglePdfDiv (1 : ℚ) 1 = none := by
  norm_num [trianglePdfDiv]

/-- C5 counterexample: `Triangle(-1, 0, 1)` stores
`_repr_args = [-1, 1/2, 1]` — the *normalized* midpoint `1/2`, not the
original construction argument `0` (the source's own doctest shows
`Triangle(-1, 0.5, 1)`). -/
theorem triangle_repr_args_not_original :
    TriangleInit (-1 : ℚ) 0 1 = .ok ⟨⟨1/2⟩, -1, 1, [-1, 1/2, 1]⟩ ∧
    [(-1 : ℚ), 1/2, 1] ≠ [-1, 0, 1] := by
  constructor
  · norm_num [TriangleInit, lowerUpperInit, triangleMk]
  · intro h
    simp at h

/-- C5 (amended): the wrapper builds its child with the normalized shape
parameter `(midpoint - lower)*1/(upper - lower)` and leaves it untouched,
but `_repr_args` keeps `[lower, normalized, upper]` — the rebound local
`midpoint` — not the original argument; display therefore diverges from
the original midpoint whenever normalization changes it. -/
theorem triangle_wrapper_repr_normalized {α : Type} [LinearOrderedField α]
    (lower midpoint upper : α) (hlu : lower ≤ upper) :
    TriangleInit lower midpoint upper =
      .ok ⟨⟨(midpoint - lower) * 1 / (upper - lower)⟩, lower, upper,
        [lower, (midpoint - lower) * 1 / (upper - lower), upper]⟩ ∧
    ((midpoint - lower) * 1 / (upper - lower) ≠ midpoint →
      [lower, (midpoint - lower) * 1 / (upper - lower), upper] ≠ [lower, midpoint, upper]) := by
  constructor
  · simp [TriangleInit, lowerUpperInit, triangleMk, hlu]
  · intro hne heq
    apply hne
    have := List.cons.injEq lower ([(midpoint - lower) * 1 / (upper - lower), upper])
      lower [midpoint, upper]
    rw [this] at heq
    exact (List.cons.injEq _ _ _ _ ▸ heq.2).1

/-- C5 witness: at `Triangle(-1, 0, 1)` the normalized midpoint `1/2`
differs from the original `0`, and the stored display list shows the
normalized one. -/
theorem triangle_wrapper_repr_normalized_witness :
    ((-1 : ℚ) ≤ 1) ∧
    (TriangleInit (-1 : ℚ) 0 1 =
      .ok ⟨⟨(0 - (-1)) * 1 / (1 - (-1))⟩, -1, 1, [-1, (0 - (-1)) * 1 / (1 - (-1)), 1]⟩ ∧
    ((0 - (-1)) * 1 / (1 - (-1)) ≠ (0 : ℚ) →
      [(-1 : ℚ), (0 - (-1)) * 1 / (1 - (-1)), 1] ≠ [-1, 0, 1])) :=
  ⟨by norm_num, triangle_wrapper_repr_normalized (-1) 0 1 (by norm_num)⟩

/-- C6 counterexample: `Triangle(0, 5, 1)` — midpoint far outside
`[lower, upper]` — constructs successfully, the child silently receiving
shape parameter `5`: no construction-time validation error occurs. -/
theorem triangle_midpoint_not_validated :
    TriangleInit (0 : ℚ) 5 1 = .ok ⟨⟨5⟩, 0, 1, [0, 5, 1]⟩ ∧ ¬ ((5 : ℚ) ≤ 1) := by
  constructor
  · norm_num [TriangleInit, lowerUpperInit, triangleMk]
  · norm_num

/-- C6 (amended): construction validates only `lower ≤ upper` (the
baseclass check, modelled from the spec); the midpoint ordering is never
checked — `triangle.__init__`'s range assertion is commented out — so
*every* midpoint yields a successful construction whenever
`lower ≤ upper`, and only `lower > upper` fails. -/
theorem triangle_construction_validates_only_bounds {α : Type} [LinearOrderedField α]
    (lower midpoint upper : α) :
    (lower ≤ upper →
      TriangleInit lower midpoint upper =
        .ok ⟨⟨(midpoint - lower) * 1 / (upper - lower)⟩, lower, upper,
          [lower, (midpoint - lower) * 1 / (upper - lower), upper]⟩) ∧
    (¬ lower ≤ upper →
      TriangleInit lower midpoint upper =
        .error "lower bound must not exceed upper bound") := by
  constructor <;> intro h <;> simp [TriangleInit, lowerUpperInit, triangleMk, h]

/-- C6 witness: the out-of-order midpoint `5 ∉ [0, 1]` nevertheless
constructs. -/
theorem triangle_construction_validates_only_bounds_witness :
    ((0 : ℚ) ≤ 1) ∧
    TriangleInit (0 : ℚ) 5 1 =
      .ok ⟨⟨(5 - 0) * 1 / (1 - 0)⟩, 0, 1, [0, (5 - 0) * 1 / (1 - 0), 1]⟩ :=
  ⟨by norm_num, (triangle_construction_validates_only_bounds 0 5 1).1 (by norm_num)⟩

/-! ## Embedding of `triangle._ttr` -/

/-- The external numerical primitives `_ttr` calls.  `quad_fejer` and
`discretized_stieltjes` come from `chaospy.quadrature` and `beta_._ttr`
from the Beta collection — all outside the two source files — so they are
oracle parameters, typed after the spec's interface description:
`quadrature(n, interval) -> (nodes, weights)` and
`stieltjes(k, nodes, weights) -> coefficients up to order k` (two rows,
alphas and betas), plus the Beta family's closed-form recurrence. -/
structure TtrOracles (α : Type) where
  quad_fejer : Nat → α × α → List α × List α
  discretized_stieltjes : Nat → List α → List α → List α × List α
  beta_ttr : Nat → α → α → α × α

/-- `triangle._ttr(k, a)`: the boundary parameters short-circuit to the
Beta-family closed forms (`beta_()._ttr(k, 1, 2)` for `a == 0` and
`beta_()._ttr(k, 2, 1)` for `a == 1`); otherwise Fejér nodes/weights are
generated on `(0, a)` with `int(1000*a)` points and on `(a, 1)` with
`int(1000*(1-a))` points, concatenated, the weights multiplied
elementwise by `self._pdf` at the nodes, and the discretized Stieltjes
output's last column `coeffs[:, 0, -1]` is returned. -/
def triangleTtr {α : Type} [LinearOrderedField α] [FloorRing α]
    (O : TtrOracles α) (k : Nat) (a : α) : α × α :=
  if a = 0 then O.beta_ttr k 1 2
  else if a = 1 then O.beta_ttr k 2 1
  else
    let qw1 := O.quad_fejer (Int.toNat ⌊(1000 : α) * a⌋) (0, a)
    let qw2 := O.quad_fejer (Int.toNat ⌊(1000 : α) * (1 - a)⌋) (a, 1)
    let qloc := qw1.1 ++ qw2.1
    let w := List.zipWith (fun wi xi => wi * trianglePdf xi a) (qw1.2 ++ qw2.2) qloc
    let coeffs := O.discretized_stieltjes k qloc w
    (coeffs.1.getLastD 0, coeffs.2.getLastD 0)

/-- Modelled from the spec: the Recurrence Engine pipeline in the spec's
own words — short-circuit the degenerate boundary parameters to the
Beta-family closed-form recurrences; otherwise generate per-sub-interval
quadrature with node counts proportional to sub-interval width
(`int(1000*a)` and `int(1000*(1-a))`), concatenate nodes and weights,
multiply each weight by the density at its node, run the discretized
Stieltjes process up to order `k`, and return *the order-`k`
(alpha, beta) pair* (entry `k` of the coefficient rows). -/
def triangleTtrSpec {α : Type} [LinearOrderedField α] [FloorRing α]
    (O : TtrOracles α) (k : Nat) (a : α) : α × α :=
  if a = 0 then O.beta_ttr k 1 2
  else if a = 1 then O.beta_ttr k 2 1
  else
    let qw1 := O.quad_fejer (Int.toNat ⌊(1000 : α) * a⌋) (0, a)
    let qw2 := O.quad_fejer (Int.toNat ⌊(1000 : α) * (1 - a)⌋) (a, 1)
    let qloc := qw1.1 ++ qw2.1
    let w := List.zipWith (fun wi xi => wi * trianglePdf xi a) (qw1.2 ++ qw2.2) qloc
    let coeffs := O.discretized_stieltjes k qloc w
    (coeffs.1.getD k 0, coeffs.2.getD k 0)

/-- For a list of length `k+1`, the last entry is the entry of index `k`:
`coeffs[:, 0, -1]` is the order-`k` pair when the Stieltjes primitive
returns coefficients for orders `0..k`. -/
theorem getLastD_eq_getD_of_length {α : Type} :
    ∀ (l : List α) (k : Nat) (d : α), l.length = k + 1 → l.getLastD d = l.getD k d := by
  intro l
  induction l with
  | nil => intro k d h; exact absurd h (by simp)
  | cons x t ih =>
      intro k d h
      cases t with
      | nil =>
          have hk : k = 0 := by simpa using h
          subst hk; rfl
      | cons y t' =>
          have hlen : (y :: t').length = k := by simpa using h
          cases k with
          | zero => exact absurd hlen (by simp)
          | succ m =>
              have hlen' : (y :: t').length = m + 1 := hlen
              have h1 : (x :: y :: t').getLastD d = (y :: t').getLastD x := rfl
              have h2 : (y :: t').getLastD x = (y :: t').getD m x := ih m x hlen'
              have h3 : (y :: t').getD m x = (y :: t').getD m d := by
                have hm : m < (y :: t').length := by rw [hlen']; omega
                rw [List.getD_eq_getElem _ _ hm, List.getD_eq_getElem _ _ hm]
              have h4 : (x :: y :: t').getD (m + 1) d = (y :: t').getD m d := rfl
              rw [h1, h2, h3, ← h4]

/-- C2: for interior shape parameters, `_ttr` realizes exactly the spec's
pipeline: given the Stieltjes primitive's interface contract
(coefficient rows for orders `0..k`, hence length `k+1`), the returned
last column *is* the order-`k` pair; and the degenerate values `a = 0`
and `a = 1` short-circuit to the Beta closed forms `beta_(1,2)` and
`beta_(2,1)` without consulting the quadrature or Stieltjes primitives
at all (the result is unchanged under swapping them for any others). -/
theorem ttr_matches_spec_pipeline {α : Type} [LinearOrderedField α] [FloorRing α]
    (O : TtrOracles α)
    (hlen : ∀ (k : Nat) (q w : List α),
        (O.discretized_stieltjes k q w).1.length = k + 1 ∧
        (O.discretized_stieltjes k q w).2.length = k + 1) :
    (∀ (k : Nat) (a : α), 0 < a → a < 1 → triangleTtr O k a = triangleTtrSpec O k a)
    ∧ (∀ k : Nat, triangleTtr O k 0 = O.beta_ttr k 1 2 ∧ triangleTtr O k 1 = O.beta_ttr k 2 1)
    ∧ (∀ O2 : TtrOracles α, O2.beta_ttr = O.beta_ttr →
        ∀ k : Nat, triangleTtr O2 k 0 = triangleTtr O k 0 ∧
          triangleTtr O2 k 1 = triangleTtr O k 1) := by
  refine ⟨?_, ?_, ?_⟩
  · intro k a h0 h1
    have ha0 : a ≠ 0 := ne_of_gt h0
    have ha1 : a ≠ 1 := ne_of_lt h1
    have key : ∀ q w : List α,
        ((O.discretized_stieltjes k q w).1.getLastD 0,
         (O.discretized_stieltjes k q w).2.getLastD 0)
        = ((O.discretized_stieltjes k q w).1.getD k 0,
           (O.discretized_stieltjes k q w).2.getD k 0) := by
      intro q w
      obtain ⟨hl1, hl2⟩ := hlen k q w
      rw [getLastD_eq_getD_of_length _ _ _ hl1, getLastD_eq_getD_of_length _ _ _ hl2]
    simp only [triangleTtr, triangleTtrSpec, if_neg ha0, if_neg ha1]
    exact key _ _
  · intro k
    constructor
    · simp [triangleTtr]
    · simp [triangleTtr]
  · intro O2 hbeta k
    constructor
    · simp [triangleTtr, hbeta]
    · simp [triangleTtr, hbeta]

/-- A concrete oracle instance satisfying the Stieltjes length contract,
used to witness the pipeline theorem. -/
def ttrOracleW : TtrOracles ℚ :=
  ⟨fun _ lohi => ([lohi.1, lohi.2], [1, 1]),
   fun k _ _ => (List.replicate (k+1) 0, List.replicate (k+1) 0),
   fun _ _ _ => (0, 0)⟩

/-- C2 witness: at `a = 1/2`, `k = 1` the code-side and spec-side
pipelines agree on the concrete oracle. -/
theorem ttr_matches_spec_pipeline_witness :
    (∀ (k : Nat) (q w : List ℚ),
        (ttrOracleW.discretized_stieltjes k q w).1.length = k + 1 ∧
        (ttrOracleW.discretized_stieltjes k q w).2.length = k + 1) ∧
    ((0 : ℚ) < 1/2 ∧ (1/2 : ℚ) < 1) ∧
    triangleTtr ttrOracleW 1 (1/2) = triangleTtrSpec ttrOracleW 1 (1/2) :=
  ⟨fun k q w => ⟨by simp [ttrOracleW], by simp [ttrOracleW]⟩,
   ⟨by norm_num, by norm_num⟩,
   (ttr_matches_spec_pipeline ttrOracleW
      (fun k q w => ⟨by simp [ttrOracleW], by simp [ttrOracleW]⟩)).1
     1 (1/2) (by norm_num) (by norm_num)⟩

/-- C7 (amended): `_ttr` applies no validation at all to the coefficients
it returns: for interior parameters the returned beta is whatever the
Stieltjes primitive's last column holds — negative or not — passed
through unchanged; there is no error-signalling path. -/
theorem ttr_no_coefficient_validation {α : Type} [LinearOrderedField α] [FloorRing α]
    (O : TtrOracles α) (k : Nat) (a : α) (h0 : 0 < a) (h1 : a < 1) (b : α)
    (hb : (O.discretized_stieltjes k
        ((O.quad_fejer (Int.toNat ⌊(1000 : α) * a⌋) (0, a)).1 ++
         (O.quad_fejer (Int.toNat ⌊(1000 : α) * (1 - a)⌋) (a, 1)).1)
        (List.zipWith (fun wi xi => wi * trianglePdf xi a)
          ((O.quad_fejer (Int.toNat ⌊(1000 : α) * a⌋) (0, a)).2 ++
           (O.quad_fejer (Int.toNat ⌊(1000 : α) * (1 - a)⌋) (a, 1)).2)
          ((O.quad_fejer (Int.toNat ⌊(1000 : α) * a⌋) (0, a)).1 ++
           (O.quad_fejer (Int.toNat ⌊(1000 : α) * (1 - a)⌋) (a, 1)).1))).2.getLastD 0 = b) :
    (triangleTtr O k a).2 = b := by
  have ha0 : a ≠ 0 := ne_of_gt h0
  have ha1 : a ≠ 1 := ne_of_lt h1
  simp only [triangleTtr, if_neg ha0, if_neg ha1]
  exact hb

/-- An oracle whose Stieltjes primitive reports an invalid negative beta,
exhibiting that `_ttr` passes it through. -/
def ttrOracleNeg : TtrOracles ℚ :=
  ⟨fun _ lohi => ([lohi.1, lohi.2], [1, 1]),
   fun _ _ _ => ([0], [-1]),
   fun _ _ _ => (0, 0)⟩

/-- C7 counterexample: when the Stieltjes output's beta is `-1`, `_ttr`
*returns* the pair `(0, -1)` — a negative beta — rather than signalling a
precision problem. -/
theorem ttr_returns_negative_beta :
    triangleTtr ttrOracleNeg 0 (1/2 : ℚ) = (0, -1) ∧ ((-1 : ℚ) < 0) := by
  constructor
  · norm_num [triangleTtr, ttrOracleNeg]
  · norm_num

/-- C7 witness: the no-validation theorem applied at the negative-beta
oracle. -/
theorem ttr_no_coefficient_validation_witness :
    ((0 : ℚ) < 1/2) ∧ ((1/2 : ℚ) < 1) ∧ (triangleTtr ttrOracleNeg 0 (1/2)).2 = -1 :=
  ⟨by norm_num, by norm_num,
    ttr_no_coefficient_validation ttrOracleNeg 0 (1/2) (by norm_num) (by norm_num) (-1) rfl⟩

/-- C4: the closed-form round-trips hold for every shape parameter
`a ∈ [0, 1]` (boundaries included): `_ppf(_cdf(x, a), a) = x` on the open
support interior, `_cdf(_ppf(q, a), a) = q` for `q ∈ (0, 1)`, and the two
closed-form inverse branches of `_ppf` agree at the breakpoint `q = a`
(`sqrt(a*a)` from the first branch equals `1 - sqrt(1-a-a*(1-a))` from
the second). -/
theorem triangle_roundtrip (a x q : ℝ)
    (ha0 : 0 ≤ a) (ha1 : a ≤ 1) (hx0 : 0 < x) (hx1 : x < 1)
    (hq0 : 0 < q) (hq1 : q < 1) :
    trianglePpf (triangleCdf x a) a = x
    ∧ triangleCdf (trianglePpf q a) a = q
    ∧ Real.sqrt (a * a) = 1 - Real.sqrt (1 - a - a * (1 - a)) := by
  have hpart3 : Real.sqrt (a * a) = 1 - Real.sqrt (1 - a - a * (1 - a)) := by
    have h1 : 1 - a - a * (1 - a) = (1 - a) * (1 - a) := by ring
    rw [h1, Real.sqrt_mul_self ha0,
      Real.sqrt_mul_self (by linarith : (0:ℝ) ≤ 1 - a)]
    ring
  have hpart1 : trianglePpf (triangleCdf x a) a = x := by
    by_cases hxa : x < a
    · -- first branch of `_cdf`: needs a > 0
      have ha : 0 < a := lt_trans hx0 hxa
      have hane : a ≠ 0 := ne_of_gt ha
      have hcdf : triangleCdf x a = x^2 / a := by
        simp only [triangleCdf, if_pos hxa, if_neg hane, add_zero]
      have hqa : x^2 / a < a := by
        rw [div_lt_iff₀ ha]
        nlinarith [mul_self_lt_mul_self (le_of_lt hx0) hxa]
      rw [hcdf]
      simp only [trianglePpf, if_pos hqa]
      rw [div_mul_cancel₀ _ hane, Real.sqrt_sq (le_of_lt hx0)]
    · -- second branch of `_cdf`: `a ≤ x < 1`, so `a ≠ 1`
      push_neg at hxa
      have ha1' : a < 1 := lt_of_le_of_lt hxa hx1
      have hane1 : a ≠ 1 := ne_of_lt ha1'
      have h1a : (0 : ℝ) < 1 - a := by linarith
      have hcdf : triangleCdf x a = (2*x - x*x - a) / (1 - a) := by
        simp only [triangleCdf, if_neg (not_lt.mpr hxa), if_neg hane1, add_zero]
      have hqa : ¬ ((2*x - x*x - a) / (1 - a) < a) := by
        rw [not_lt, le_div_iff₀ h1a]
        nlinarith [mul_self_le_mul_self (by linarith : (0:ℝ) ≤ 1 - x)
          (by linarith : 1 - x ≤ 1 - a)]
      rw [hcdf]
      simp only [trianglePpf, if_neg hqa]
      have hval : 1 - a - (2*x - x*x - a) / (1 - a) * (1 - a) = (1 - x)^2 := by
        rw [div_mul_cancel₀ _ (ne_of_gt h1a)]
        ring
      rw [hval, Real.sqrt_sq (by linarith : (0:ℝ) ≤ 1 - x)]
      ring
  have hpart2 : triangleCdf (trianglePpf q a) a = q := by
    by_cases hqa : q < a
    · -- first branch of `_ppf`: needs a > 0
      have ha : 0 < a := lt_trans hq0 hqa
      have hane : a ≠ 0 := ne_of_gt ha
      have hppf : trianglePpf q a = Real.sqrt (q * a) := by
        simp only [trianglePpf, if_pos hqa]
      have hsn : 0 ≤ q * a := mul_nonneg (le_of_lt hq0) (le_of_lt ha)
      have hlt : Real.sqrt (q * a) < a := by
        rw [Real.sqrt_lt' ha]
        nlinarith
      rw [hppf]
      have hcdf : triangleCdf (Real.sqrt (q * a)) a = (Real.sqrt (q * a))^2 / a := by
        simp only [triangleCdf, if_pos hlt, if_neg hane, add_zero]
      rw [hcdf, Real.sq_sqrt hsn, mul_div_cancel_right₀ _ hane]
    · -- second branch of `_ppf`: `a ≤ q < 1`, so `a ≠ 1`
      push_neg at hqa
      have ha1' : a < 1 := lt_of_le_of_lt hqa hq1
      have hane1 : a ≠ 1 := ne_of_lt ha1'
      have h1a : (0 : ℝ) < 1 - a := by linarith
      have harg : 1 - a - q * (1 - a) = (1 - a) * (1 - q) := by ring
      have hargnn : 0 ≤ (1 - a) * (1 - q) := mul_nonneg h1a.le (by linarith)
      have ht2 : Real.sqrt (1 - a - q * (1 - a)) * Real.sqrt (1 - a - q * (1 - a))
          = (1 - a) * (1 - q) := by
        rw [harg]
        exact Real.mul_self_sqrt hargnn
      have htle : Real.sqrt (1 - a - q * (1 - a)) ≤ 1 - a := by
        rw [harg]
        calc Real.sqrt ((1 - a) * (1 - q)) ≤ Real.sqrt ((1 - a) * (1 - a)) :=
              Real.sqrt_le_sqrt (by nlinarith)
          _ = 1 - a := Real.sqrt_mul_self h1a.le
      have hppf : trianglePpf q a = 1 - Real.sqrt (1 - a - q * (1 - a)) := by
        simp only [trianglePpf, if_neg (not_lt.mpr hqa)]
      have hxge : ¬ (1 - Real.sqrt (1 - a - q * (1 - a)) < a) :=
        not_lt.mpr (by linarith)
      rw [hppf]
      have hcdf : triangleCdf (1 - Real.sqrt (1 - a - q * (1 - a))) a
          = (2*(1 - Real.sqrt (1 - a - q * (1 - a)))
             - (1 - Real.sqrt (1 - a - q * (1 - a))) * (1 - Real.sqrt (1 - a - q * (1 - a)))
             - a) / (1 - a) := by
        simp only [triangleCdf, if_neg hxge, if_neg hane1, add_zero]
      rw [hcdf]
      have hnum : 2*(1 - Real.sqrt (1 - a - q * (1 - a)))
          - (1 - Real.sqrt (1 - a - q * (1 - a))) * (1 - Real.sqrt (1 - a - q * (1 - a)))
          - a = (1 - a) * q := by
        linear_combination -ht2
      rw [hnum, mul_div_cancel_left₀ _ (ne_of_gt h1a)]
  exact ⟨hpart1, hpart2, hpart3⟩

/-- C4 witness: the round-trip instantiated at `a = 1/2`, `x = 1/4`,
`q = 1/4`. -/
theorem triangle_roundtrip_witness :
    ((0:ℝ) ≤ 1/2 ∧ (1/2:ℝ) ≤ 1 ∧ (0:ℝ) < 1/4 ∧ (1/4:ℝ) < 1) ∧
    (trianglePpf (triangleCdf (1/4) (1/2)) (1/2) = 1/4
     ∧ triangleCdf (trianglePpf (1/4) (1/2)) (1/2) = 1/4
     ∧ Real.sqrt ((1/2) * (1/2)) = 1 - Real.sqrt (1 - 1/2 - (1/2) * (1 - 1/2))) :=
  ⟨⟨by norm_num, by norm_num, by norm_num, by norm_num⟩,
    triangle_roundtrip (1/2) (1/4) (1/4) (by norm_num) (by norm_num) (by norm_num)
      (by norm_num) (by norm_num) (by norm_num)⟩
